import Mathlib

/-!
# GitHub followers utility: a shallow embedding of `script.js`

The script is a command-line tool with six commands. Each definition below is
the translation of one function (or one library primitive that a function
calls) of `script.js`.

* JavaScript strings are lists of characters (`Str`).
* The outside world is explicit state (`World`): the number of HTTP requests
  issued so far, the observable trace (requests, console output, timers) and
  the files on disk.
* The network is a parameter (`Network`): it decides, for the n-th request of
  the run, whether `axios` resolves (and with which body) or rejects.
* `while (true)` loops take a fuel argument and answer `none` when the fuel
  runs out; an uncaught exception is `none` as well.
* The page counter is a natural number and arrays are lists.
* The delay is the value the command line hands over (`DelayOption`); its
  product with 1000 is a `JsNumber`, and `timerWait` is the time a timer of
  the Node.js runtime waits when armed with it.
-/

namespace GithubFollowers

/-! ## JavaScript values and string primitives -/

/-- JavaScript strings, as lists of characters. -/
abbrev Str := List Char

/-- The JavaScript values that flow through request parameters and CSV
records: `undefined`, a non-negative integer, or a string. -/
inductive JsVal where
  | undefined
  | num (n : Nat)
  | str (s : Str)
deriving DecidableEq, Repr

/-- ECMAScript `ToString`, as applied by template literals and by
`String.prototype.replace` to its second argument. -/
def JsVal.toStr : JsVal → Str
  | .undefined => "undefined".toList
  | .num n => (Nat.repr n).toList
  | .str s => s

/-- The backtick character U+0060. -/
def backtick : Char := Char.ofNat 96

/-- The apostrophe character U+0027. -/
def apostrophe : Char := Char.ofNat 39

/-- ECMAScript `StringIndexOf(s, pat, 0)`: position of the first occurrence
of `pat` in `s`. -/
def indexOf : Str → Str → Option Nat
  | [], pat => if pat.isPrefixOf [] then some 0 else none
  | c :: s, pat =>
    if pat.isPrefixOf (c :: s) then some 0 else (indexOf s pat).map (· + 1)

/-- ECMAScript `GetSubstitution` for a string pattern (no capture groups):
in the replacement text `$$` stands for a dollar sign, `$&` for the matched
text, dollar-backtick for the text before the match and dollar-apostrophe for
the text after it; every other character, a dollar sign included, is copied. -/
def getSubstitution (matched before after : Str) : Str → Str
  | [] => []
  | c :: rest =>
    if c = '$' then
      match rest with
      | [] => [c]
      | d :: rest2 =>
        if d = '$' then '$' :: getSubstitution matched before after rest2
        else if d = '&' then matched ++ getSubstitution matched before after rest2
        else if d = backtick then before ++ getSubstitution matched before after rest2
        else if d = apostrophe then after ++ getSubstitution matched before after rest2
        else c :: d :: getSubstitution matched before after rest2
    else c :: getSubstitution matched before after rest

/-- `String.prototype.replace(pat, replacement)` with a string pattern: only
the first occurrence is replaced, and the replacement goes through
`getSubstitution`. -/
def replace (s pat replacement : Str) : Str :=
  match indexOf s pat with
  | none => s
  | some pos =>
    let before := s.take pos
    let after := s.drop (pos + pat.length)
    before ++ getSubstitution pat before after replacement ++ after

/-- `String.prototype.split(sep)` for a one-character separator, scanning left
to right; `cur` holds the characters of the field being read, newest first. -/
def splitGo (sep : Char) : Str → Str → List Str
  | [], cur => [cur.reverse]
  | c :: cs, cur =>
    if c = sep then cur.reverse :: splitGo sep cs [] else splitGo sep cs (c :: cur)

/-- `s.split(sep)` for a one-character separator. -/
def split (s : Str) (sep : Char) : List Str := splitGo sep s []

/-- `Array.prototype.join(sep)`: the separator goes between consecutive
elements only. -/
def join (sep : Str) : List Str → Str
  | [] => []
  | [x] => x
  | x :: y :: rest => x ++ sep ++ join sep (y :: rest)

/-- ECMAScript white space and line terminators, the characters that
`String.prototype.trim` strips. -/
def isWhiteSpace (c : Char) : Bool :=
  let n := c.toNat
  n = 0x09 || n = 0x0A || n = 0x0B || n = 0x0C || n = 0x0D || n = 0x20 || n = 0xA0 ||
  n = 0x1680 || (0x2000 ≤ n && n ≤ 0x200A) || n = 0x2028 || n = 0x2029 || n = 0x202F ||
  n = 0x205F || n = 0x3000 || n = 0xFEFF

/-- `String.prototype.trim`. -/
def trim (s : Str) : Str :=
  ((s.dropWhile isWhiteSpace).reverse.dropWhile isWhiteSpace).reverse

/-- JavaScript truthiness of a string: every string but the empty one. -/
def truthy (s : Str) : Bool := !s.isEmpty

/-! ## Numbers and timers -/

/-- The JavaScript numbers that the delay arithmetic tells apart. -/
inductive JsNumber where
  /-- The whole number `n`, below 2^53 and so represented exactly. -/
  | whole (n : Nat)
  /-- A number of at least 2^53, or `Infinity`. -/
  | huge
  /-- A number below zero, or minus zero. -/
  | negative
  /-- The value `NaN`. -/
  | nan
  /-- A number, `NaN` included, whose value this model does not compute: the
  result of a text written with a fraction, an exponent, a radix mark or any
  other form that `DelayOption.toNumber` does not read. -/
  | other
deriving DecidableEq, Repr

/-- The number for a whole value: exact below 2^53. -/
def JsNumber.ofNat (n : Nat) : JsNumber :=
  if n < 9007199254740992 then .whole n else .huge

/-- The product `x * 1000`. -/
def JsNumber.times1000 : JsNumber → JsNumber
  | .whole n => JsNumber.ofNat (n * 1000)
  | .huge => .huge
  | .negative => .negative
  | .nan => .nan
  | .other => .other

/-- The value of a decimal digit. -/
def digitValue (c : Char) : Option Nat :=
  if '0' ≤ c ∧ c ≤ '9' then some (c.toNat - 48) else none

/-- The value of a non-empty run of decimal digits. -/
def decimalValue : Str → Option Nat
  | [] => none
  | c :: cs => (c :: cs).foldlM (fun acc d => (digitValue d).map (fun v => acc * 10 + v)) 0

/-- The value of `options.delay`: the number given to `.option(...)` as the
default when the flag is absent, or the text typed after `--delay`. -/
inductive DelayOption where
  | preset (seconds : Nat)
  | typed (text : Str)
deriving DecidableEq, Repr

/-- ECMAScript `ToNumber`, the coercion that `*` applies to `options.delay`.
A text is trimmed first; the empty text is 0, a run of decimal digits with an
optional sign is read exactly, and a text that starts with no character a
numeric literal can start with is `NaN`. -/
def DelayOption.toNumber : DelayOption → JsNumber
  | .preset seconds => JsNumber.ofNat seconds
  | .typed text =>
    match trim text with
    | [] => .whole 0
    | c :: cs =>
      match decimalValue (c :: cs) with
      | some n => JsNumber.ofNat n
      | none =>
        if c = '+' then
          match decimalValue cs with
          | some n => JsNumber.ofNat n
          | none => .other
        else if c = '-' then
          match decimalValue cs with
          | some _ => .negative
          | none => .other
        else if (digitValue c).isSome ∨ c = '.' ∨ c = 'I' then .other
        else .nan

/-- The longest duration a Node.js timer accepts, 2^31 - 1 milliseconds. -/
def TIMEOUT_MAX : Nat := 2147483647

/-- The time in milliseconds that a Node.js timer armed with `after` waits: a
duration that is not between 1 and `TIMEOUT_MAX` is set to 1. The answer is
`none` for a number whose value the model does not compute. -/
def timerWait : JsNumber → Option Nat
  | .whole n => some (if 1 ≤ n ∧ n ≤ TIMEOUT_MAX then n else 1)
  | .huge => some 1
  | .negative => some 1
  | .nan => some 1
  | .other => none

/-! ## Data model -/

/-- A user object of the GitHub API; the script reads `login` and `html_url`. -/
structure User where
  login : Str
  html_url : Str
deriving DecidableEq, Repr

/-- A record returned by `loadCsv`: `{ username, url }`. -/
structure Record where
  username : JsVal
  url : JsVal
deriving DecidableEq, Repr

/-- An HTTP request handed to `axios`. The `auth` pair (the two environment
variables) and `data` (always `null`) are the same for every request of a run
and are left out. -/
structure Request where
  method : Str
  url : Str
  params : List (Str × JsVal)
deriving DecidableEq, Repr

/-- What `response.data` can be for the endpoints used: JSON `null`, an empty
body (the empty string, as sent with `204 No Content`), or an array of user
objects. -/
inductive Body where
  | null
  | empty
  | users (items : List User)
deriving DecidableEq, Repr

/-- How an `axios` call ends: it resolves with `response.data`, or it rejects
and `message` is the text of
`error.response?.data?.message || error.message`. -/
inductive Outcome where
  | resolved (data : Body)
  | rejected (message : Str)
deriving DecidableEq, Repr

/-- The remote side: the outcome of the request issued when `n` requests have
already been issued in this run. -/
abbrev Network := Nat → Request → Outcome

/-- Observable effects: a request handed to `axios`, a line printed with
`console.error` or `console.log`, a timer armed through `setTimeout` with the
number `after` as its duration. -/
inductive Event where
  | request (r : Request)
  | consoleError (msg : Str)
  | consoleLog (msg : Str)
  | setTimeout (after : JsNumber)
deriving DecidableEq, Repr

/-- State of the outside world. -/
structure World where
  calls : Nat
  trace : List Event
  files : List (Str × Str)
deriving DecidableEq, Repr

/-- Append one event to the trace. -/
def World.emit (w : World) (e : Event) : World :=
  { w with trace := w.trace ++ [e] }

/-- `fs.writeFileSync(filename, text, "utf8")`: the file is created or
replaced. -/
def writeFileSync (filename text : Str) (w : World) : World :=
  { w with files := (filename, text) :: w.files.filter (fun f => f.1 ≠ filename) }

/-- `fs.readFileSync(filename, "utf8")`; `none` when the file does not exist
(the call throws). -/
def readFileSync (filename : Str) (w : World) : Option Str :=
  (w.files.find? (fun f => f.1 = filename)).map (·.2)

/-! ## The script -/

def BASE_URL : Str := "https://api.github.com".toList

def GitHubAPI.FOLLOWING : Str := "/user/following".toList
def GitHubAPI.ORG_MEMBERS : Str := "/orgs/{org}/members".toList
def GitHubAPI.FOLLOW_USER : Str := "/user/following/{username}".toList
def GitHubAPI.UNFOLLOW_USER : Str := "/user/following/{username}".toList

/-- `constructUrl(endpoint, params)`: every entry of `params`, in insertion
order, replaces its placeholder `{key}` in the URL. -/
def constructUrl (endpoint : Str) (params : List (Str × JsVal)) : Str :=
  params.foldl
    (fun url kv => replace url ("\x7b".toList ++ kv.1 ++ "\x7d".toList) kv.2.toStr)
    (BASE_URL ++ endpoint)

/-- `githubRequest(method, endpoint, params)`: one `axios` call. A rejected
call is reported on the console and answered with `null`. -/
def githubRequest (net : Network) (method endpoint : Str) (params : List (Str × JsVal))
    (w : World) : Body × World :=
  let url := constructUrl endpoint params
  let req : Request := { method := method, url := url, params := params }
  let w1 : World := { w with calls := w.calls + 1, trace := w.trace ++ [Event.request req] }
  match net w.calls req with
  | .resolved data => (data, w1)
  | .rejected message => (Body.null, w1.emit (.consoleError ("Error: ".toList ++ message)))

/-- `!data || data.length === 0`, the exit test of both pagination loops. -/
def pageDone : Body → Bool
  | .null => true
  | .empty => true
  | .users items => items.length == 0

/-- `users.concat(data)`, reached only when `data` is a non-empty array. -/
def concatPage (users : List User) : Body → List User
  | .users items => users ++ items
  | _ => users

/-- The `while (true)` loop of `getFollowingUsers`, from the state
`(users, page)`. -/
def getFollowingUsersLoop (net : Network) : Nat → List User → Nat → World →
    Option (List User × World)
  | 0, _, _, _ => none
  | fuel + 1, users, page, w =>
    let (data, w1) := githubRequest net "get".toList GitHubAPI.FOLLOWING
      [("page".toList, .num page), ("per_page".toList, .num 100)] w
    if pageDone data then some (users, w1)
    else getFollowingUsersLoop net fuel (concatPage users data) (page + 1) w1

/-- `getFollowingUsers()`. -/
def getFollowingUsers (net : Network) (fuel : Nat) (w : World) : Option (List User × World) :=
  getFollowingUsersLoop net fuel [] 1 w

/-- The `while (true)` loop of `getOrgMembers`, from the state
`(members, page)`. -/
def getOrgMembersLoop (net : Network) (org : JsVal) : Nat → List User → Nat → World →
    Option (List User × World)
  | 0, _, _, _ => none
  | fuel + 1, members, page, w =>
    let (data, w1) := githubRequest net "get".toList GitHubAPI.ORG_MEMBERS
      [("org".toList, org), ("page".toList, .num page), ("per_page".toList, .num 100)] w
    if pageDone data then some (members, w1)
    else getOrgMembersLoop net org fuel (concatPage members data) (page + 1) w1

/-- `getOrgMembers(org)`. -/
def getOrgMembers (net : Network) (fuel : Nat) (org : JsVal) (w : World) :
    Option (List User × World) :=
  getOrgMembersLoop net org fuel [] 1 w

/-- `followUser(username)`. -/
def followUser (net : Network) (username : JsVal) (w : World) : World :=
  let (response, w1) := githubRequest net "put".toList GitHubAPI.FOLLOW_USER
    [("username".toList, username)] w
  if response = Body.null then
    w1.emit (.consoleError ("Failed to follow ".toList ++ username.toStr))
  else w1

/-- `unfollowUser(username)`. -/
def unfollowUser (net : Network) (username : JsVal) (w : World) : World :=
  let (response, w1) := githubRequest net "delete".toList GitHubAPI.UNFOLLOW_USER
    [("username".toList, username)] w
  if response = Body.null then
    w1.emit (.consoleError ("Failed to unfollow ".toList ++ username.toStr))
  else w1

/-- The text `csvData` that `saveCsv` builds. -/
def csvData (users : List User) : Str :=
  let csvHeader := "Username,URL\n".toList
  let csvRows := join "\n".toList (users.map (fun u => u.login ++ ",".toList ++ u.html_url))
  csvHeader ++ csvRows

/-- `saveCsv(users, filename)`. -/
def saveCsv (users : List User) (filename : Str) (w : World) : World :=
  (writeFileSync filename (csvData users) w).emit
    (.consoleLog ("Successfully saved to ".toList ++ filename))

/-- The destructuring `const [username, url] = row.split(",")` and the record
built from it; a missing array element is `undefined`. -/
def parseRow (row : Str) : Record :=
  let parts := split row ','
  { username := (parts.get? 0).elim .undefined .str
    url := (parts.get? 1).elim .undefined .str }

/-- The records `loadCsv` builds from the text of the file. -/
def parseCsv (data : Str) : List Record :=
  let rows := ((split data '\n').drop 1).filter (fun row => truthy (trim row))
  rows.map parseRow

/-- `loadCsv(filename)`; `none` when reading the file throws. -/
def loadCsv (filename : Str) (w : World) : Option (List Record) :=
  (readFileSync filename w).map parseCsv

/-- `await new Promise((resolve) => setTimeout(resolve, after))`: the timer is
armed and the loop goes on when it fires. -/
def sleep (after : JsNumber) (w : World) : World := w.emit (.setTimeout after)

/-- The parsed options of a batch command. -/
structure Options where
  delay : DelayOption
deriving DecidableEq, Repr

/-- Action of `export-following <filename>`. -/
def exportFollowing (net : Network) (fuel : Nat) (filename : Str) (w : World) : Option World :=
  match getFollowingUsers net fuel w with
  | none => none
  | some (users, w1) => some (saveCsv users filename w1)

/-- Action of `export-org-members <org> <filename>`. -/
def exportOrgMembers (net : Network) (fuel : Nat) (org filename : Str) (w : World) :
    Option World :=
  match getOrgMembers net fuel (.str org) w with
  | none => none
  | some (users, w1) => some (saveCsv users filename w1)

/-- Action of `follow-from-csv <filename>`. -/
def followFromCsv (net : Network) (filename : Str) (options : Options) (w : World) :
    Option World :=
  match loadCsv filename w with
  | none => none
  | some users =>
    some (users.foldl
      (fun w r => sleep options.delay.toNumber.times1000 (followUser net r.username w)) w)

/-- Action of `unfollow-from-csv <filename>`. -/
def unfollowFromCsv (net : Network) (filename : Str) (options : Options) (w : World) :
    Option World :=
  match loadCsv filename w with
  | none => none
  | some users =>
    some (users.foldl
      (fun w r => sleep options.delay.toNumber.times1000 (unfollowUser net r.username w)) w)

/-- Action of `follow-org-members <org>`. -/
def followOrgMembers (net : Network) (fuel : Nat) (org : Str) (options : Options)
    (w : World) : Option World :=
  match getOrgMembers net fuel (.str org) w with
  | none => none
  | some (users, w1) =>
    some (users.foldl
      (fun w u => sleep options.delay.toNumber.times1000 (followUser net (.str u.login) w)) w1)

/-- Action of `unfollow-org-members <org>`. -/
def unfollowOrgMembers (net : Network) (fuel : Nat) (org : Str) (options : Options)
    (w : World) : Option World :=
  match getOrgMembers net fuel (.str org) w with
  | none => none
  | some (users, w1) =>
    some (users.foldl
      (fun w u => sleep options.delay.toNumber.times1000 (unfollowUser net (.str u.login) w)) w1)

/-! ## Vocabulary of the statements -/

/-- One data row as the CSV format describes it: identifier, comma, profile
URL, nothing quoted or escaped. -/
def csvRow (u : User) : Str := u.login ++ ',' :: u.html_url

/-- The text of a row before its first comma (the whole row when it has
none). -/
def beforeComma (row : Str) : Str := row.takeWhile (· ≠ ',')

/-- All of the text of a row after its first comma (empty when it has none). -/
def afterComma (row : Str) : Str := (row.dropWhile (· ≠ ',')).drop 1

/-- A row that is empty or holds white space only. -/
def isBlank (row : Str) : Bool := row.all isWhiteSpace

/-- What `githubRequest` returns for an outcome of the `axios` call. -/
def Outcome.data : Outcome → Body
  | .resolved data => data
  | .rejected _ => Body.null

/-- What `githubRequest` prints for an outcome of the `axios` call. -/
def Outcome.diagnostics : Outcome → List Event
  | .resolved _ => []
  | .rejected message => [Event.consoleError ("Error: ".toList ++ message)]

/-- The requests of a trace, oldest first. -/
def requestsOf (t : List Event) : List Request :=
  t.filterMap (fun e => match e with
    | .request r => some r
    | _ => none)

/-- The durations the timers of a trace were armed with, oldest first. -/
def timeoutsOf (t : List Event) : List JsNumber :=
  t.filterMap (fun e => match e with
    | .setTimeout after => some after
    | _ => none)

/-- The sum of the times that timers armed with the given durations wait. -/
def totalWait : List JsNumber → Option Nat
  | [] => some 0
  | after :: rest =>
    match timerWait after, totalWait rest with
    | some a, some b => some (a + b)
    | _, _ => none

/-- The total time, in milliseconds, for which the timers of a trace suspend
the run. -/
def suspendedMs (t : List Event) : Option Nat := totalWait (timeoutsOf t)

/-- The `Failed to ...` lines of a trace, oldest first. -/
def failureReports (t : List Event) : List Str :=
  t.filterMap (fun e => match e with
    | .consoleError msg => if "Failed to ".toList.isPrefixOf msg then some msg else none
    | _ => none)

/-- Whether an event is console output. -/
def Event.isConsole : Event → Bool
  | .consoleError _ => true
  | .consoleLog _ => true
  | _ => false

/-- The two list endpoints. -/
inductive ListEndpoint where
  | following
  | orgMembers (org : JsVal)
deriving DecidableEq, Repr

/-- The paginator of either list endpoint. -/
def fetchAll (net : Network) (fuel : Nat) : ListEndpoint → World → Option (List User × World)
  | .following => getFollowingUsers net fuel
  | .orgMembers org => getOrgMembers net fuel org

/-- The path and the fixed parameters of a list endpoint. -/
def ListEndpoint.path : ListEndpoint → Str
  | .following => GitHubAPI.FOLLOWING
  | .orgMembers _ => GitHubAPI.ORG_MEMBERS

def ListEndpoint.fixedParams : ListEndpoint → List (Str × JsVal)
  | .following => []
  | .orgMembers org => [("org".toList, org)]

/-- The request for page `page` of a list endpoint. -/
def pageRequest (ep : ListEndpoint) (page : Nat) : Request :=
  let params := ep.fixedParams ++ [("page".toList, .num page), ("per_page".toList, .num 100)]
  { method := "get".toList, url := constructUrl ep.path params, params := params }

/-- The request of one mutating call. -/
def mutationRequest (method : Str) (username : JsVal) : Request :=
  { method := method
    url := constructUrl GitHubAPI.FOLLOW_USER [("username".toList, username)]
    params := [("username".toList, username)] }

/-- The events of one round of a batch loop, when `n` requests were issued
before it: the request, what `githubRequest` prints, the failure line when the
call returned `null`, the timer. -/
def itemEvents (net : Network) (method failureText : Str) (ms : JsNumber) (n : Nat)
    (item : JsVal) : List Event :=
  Event.request (mutationRequest method item) ::
    ((net n (mutationRequest method item)).diagnostics ++
      (if (net n (mutationRequest method item)).data = Body.null
        then [Event.consoleError (failureText ++ item.toStr)] else []) ++
      [Event.setTimeout ms])

/-- The events of a whole batch loop. -/
def batchEvents (net : Network) (method failureText : Str) (ms : JsNumber) :
    Nat → List JsVal → List Event
  | _, [] => []
  | n, item :: rest =>
    itemEvents net method failureText ms n item ++
      batchEvents net method failureText ms (n + 1) rest

/-- The four batch commands of the command line. -/
inductive BatchCommand where
  | followFromCsv (filename : Str)
  | unfollowFromCsv (filename : Str)
  | followOrgMembers (org : Str)
  | unfollowOrgMembers (org : Str)
deriving DecidableEq, Repr

/-- The action that the command line runs for a batch command. -/
def BatchCommand.run (net : Network) (fuel : Nat) (options : Options) :
    BatchCommand → World → Option World
  | .followFromCsv filename => GithubFollowers.followFromCsv net filename options
  | .unfollowFromCsv filename => GithubFollowers.unfollowFromCsv net filename options
  | .followOrgMembers org => GithubFollowers.followOrgMembers net fuel org options
  | .unfollowOrgMembers org => GithubFollowers.unfollowOrgMembers net fuel org options

/-- The identifiers a batch command iterates over, with the world at the
moment its loop starts. -/
def BatchCommand.items (net : Network) (fuel : Nat) :
    BatchCommand → World → Option (List JsVal × World)
  | .followFromCsv filename, w =>
    (loadCsv filename w).map (fun records => (records.map (·.username), w))
  | .unfollowFromCsv filename, w =>
    (loadCsv filename w).map (fun records => (records.map (·.username), w))
  | .followOrgMembers org, w =>
    (getOrgMembers net fuel (.str org) w).map (fun r => (r.1.map (fun u => .str u.login), r.2))
  | .unfollowOrgMembers org, w =>
    (getOrgMembers net fuel (.str org) w).map (fun r => (r.1.map (fun u => .str u.login), r.2))

/-- The value of `--delay` when the flag is absent: 30 seconds for the follow
commands, 5 seconds for the unfollow commands. -/
def BatchCommand.defaultDelay : BatchCommand → Nat
  | .followFromCsv _ => 30
  | .unfollowFromCsv _ => 5
  | .followOrgMembers _ => 30
  | .unfollowOrgMembers _ => 5

/-- The HTTP method of the mutating call of a batch command. -/
def BatchCommand.method : BatchCommand → Str
  | .followFromCsv _ => "put".toList
  | .unfollowFromCsv _ => "delete".toList
  | .followOrgMembers _ => "put".toList
  | .unfollowOrgMembers _ => "delete".toList

/-- The start of the failure line of a batch command. -/
def BatchCommand.failureText : BatchCommand → Str
  | .followFromCsv _ => "Failed to follow ".toList
  | .unfollowFromCsv _ => "Failed to unfollow ".toList
  | .followOrgMembers _ => "Failed to follow ".toList
  | .unfollowOrgMembers _ => "Failed to unfollow ".toList

/-! ## Sample inputs -/

/-- A fresh world: no request issued, empty trace, no file. -/
def World.initial : World := { calls := 0, trace := [], files := [] }

def alice : User := { login := "alice".toList, html_url := "https://x/alice".toList }

def bob : User := { login := "bob".toList, html_url := "https://x/bob".toList }

/-- A user whose profile URL holds a comma. -/
def carol : User := { login := "carol".toList, html_url := "https://x/carol?tab=a,b".toList }

/-- The n-th user of a remote collection of distinct users. -/
def sampleUser (n : Nat) : User :=
  { login := 'u' :: (Nat.repr n).toList, html_url := "https://x/u".toList ++ (Nat.repr n).toList }

/-- Three pages of sizes 100, 100 and 37. -/
def samplePages : List (List User) :=
  [(List.range' 0 100).map sampleUser, (List.range' 100 100).map sampleUser,
   (List.range' 200 37).map sampleUser]

/-- A remote side that serves `samplePages` and then empty pages. -/
def sampleNet : Network := fun n _ => .resolved (.users (samplePages.getD n []))

/-- A remote side whose collections are empty. -/
def emptyNet : Network := fun _ _ => .resolved (.users [])

/-- A remote side that serves one page and then rejects every request. -/
def failingNet : Network := fun n _ =>
  if n = 0 then .resolved (.users [alice, bob]) else .rejected "Not Found".toList

/-- A world whose disk holds `in.csv` with three data rows. -/
def csvWorld : World :=
  writeFileSync "in.csv".toList
    "Username,URL\na,https://x/a\nb,https://x/b\nc,https://x/c".toList World.initial

/-- A remote side that rejects the second request of the run and accepts every
other one with an empty body. -/
def secondFails : Network := fun n _ =>
  if n = 1 then .rejected "Not Found".toList else .resolved .empty

/-! ## Lemmas on the string primitives -/

theorem splitGo_shape (sep : Char) (s cur : Str) :
    splitGo sep s cur =
      (cur.reverse ++ s.takeWhile (· ≠ sep)) ::
        (match s.dropWhile (· ≠ sep) with
         | [] => []
         | _ :: rest => splitGo sep rest []) := by
  induction s generalizing cur with
  | nil => simp [splitGo]
  | cons c cs ih =>
    by_cases h : c = sep
    · subst h
      simp [splitGo]
    · simp [splitGo, h, ih (c :: cur)]

theorem splitGo_ne_nil (sep : Char) (s cur : Str) : splitGo sep s cur ≠ [] := by
  rw [splitGo_shape]; simp

theorem splitGo_no_sep (sep : Char) (s cur : Str) (h : sep ∉ s) :
    splitGo sep s cur = [cur.reverse ++ s] := by
  induction s generalizing cur with
  | nil => simp [splitGo]
  | cons c cs ih =>
    have hc : c ≠ sep := fun e => h (by simp [e])
    have hcs : sep ∉ cs := fun e => h (by simp [e])
    simp [splitGo, hc, ih (c :: cur) hcs]

theorem splitGo_append_sep (sep : Char) (a rest cur : Str) (h : sep ∉ a) :
    splitGo sep (a ++ sep :: rest) cur = (cur.reverse ++ a) :: splitGo sep rest [] := by
  induction a generalizing cur with
  | nil => simp [splitGo]
  | cons c cs ih =>
    have hc : c ≠ sep := fun e => h (by simp [e])
    have hcs : sep ∉ cs := fun e => h (by simp [e])
    simp [splitGo, hc, ih (c :: cur) hcs]

/-- Splitting the join of separator-free fields gives the fields back. -/
theorem split_join (sep : Char) (x : Str) (xs : List Str)
    (h : ∀ l ∈ x :: xs, sep ∉ l) : split (join [sep] (x :: xs)) sep = x :: xs := by
  induction xs generalizing x with
  | nil =>
    have hx : sep ∉ x := h x (by simp)
    simp [split, join, splitGo_no_sep sep x [] hx]
  | cons y ys ih =>
    have hx : sep ∉ x := h x (by simp)
    have hrest : ∀ l ∈ y :: ys, sep ∉ l := fun l hl => h l (by simp [hl])
    have := ih y hrest
    simp only [split] at this
    simp [split, join, splitGo_append_sep sep x _ [] hx, this]

theorem join_splitGo (sep : Char) (s cur : Str) :
    join [sep] (splitGo sep s cur) = cur.reverse ++ s := by
  induction s generalizing cur with
  | nil => simp [splitGo, join]
  | cons c cs ih =>
    by_cases h : c = sep
    · subst h
      have hne := splitGo_ne_nil c cs []
      have := ih []
      cases hsp : splitGo c cs [] with
      | nil => exact absurd hsp hne
      | cons y ys =>
        rw [hsp] at this
        simp at this
        simp [splitGo, hsp, join, this]
    · simp [splitGo, h, ih (c :: cur)]

theorem splitGo_fields (sep : Char) (s cur : Str) (hcur : sep ∉ cur) :
    ∀ l ∈ splitGo sep s cur, sep ∉ l := by
  induction s generalizing cur with
  | nil => simp [splitGo, hcur]
  | cons c cs ih =>
    by_cases h : c = sep
    · subst h
      intro l hl
      simp only [splitGo, if_true, List.mem_cons] at hl
      rcases hl with hl | hl
      · subst hl; simpa using hcur
      · exact ih [] (by simp) l hl
    · intro l hl
      simp only [splitGo, h, if_false] at hl
      exact ih (c :: cur) (by simp [hcur, Ne.symm h]) l hl

theorem truthy_trim (row : Str) : truthy (trim row) = !isBlank row := by
  have key : trim row = [] ↔ ∀ c ∈ row, isWhiteSpace c = true := by
    unfold trim
    rw [List.reverse_eq_nil_iff, List.dropWhile_eq_nil_iff]
    constructor
    · intro h
      have hd : row.dropWhile isWhiteSpace = [] := by
        cases hrow : row.dropWhile isWhiteSpace with
        | nil => rfl
        | cons a as =>
          have h1 : isWhiteSpace a = true := h a (by simp [hrow])
          have h2 := List.head_dropWhile_not isWhiteSpace row (by simp [hrow])
          simp [hrow] at h2
          simp [h2] at h1
      exact List.dropWhile_eq_nil_iff.mp hd
    · intro h
      have hd : row.dropWhile isWhiteSpace = [] := List.dropWhile_eq_nil_iff.mpr h
      simp [hd]
  unfold truthy isBlank
  by_cases hb : ∀ c ∈ row, isWhiteSpace c = true
  · have hall : row.all isWhiteSpace = true := by simpa using hb
    simp [key.mpr hb, hall]
  · have hall : row.all isWhiteSpace = false := by
      simpa using hb
    have hne : trim row ≠ [] := fun e => hb (key.mp e)
    cases htr : trim row with
    | nil => exact absurd htr hne
    | cons a as => simp [hall]

/-- The record of a row, field by field. -/
theorem parseRow_fields (row : Str) :
    parseRow row =
      { username := .str (beforeComma row)
        url := if ',' ∈ row then .str (beforeComma (afterComma row)) else .undefined } := by
  unfold parseRow split beforeComma afterComma
  rw [splitGo_shape]
  by_cases h : ',' ∈ row
  · have hd : row.dropWhile (· ≠ ',') ≠ [] := by
      intro e
      have := List.dropWhile_eq_nil_iff.mp e ',' h
      simp at this
    cases hrow : row.dropWhile (· ≠ ',') with
    | nil => exact absurd hrow hd
    | cons a rest =>
      simp only [List.drop_succ_cons, List.drop_zero]
      rw [splitGo_shape]
      simp [h]
  · have hd : row.dropWhile (· ≠ ',') = [] := by
      apply List.dropWhile_eq_nil_iff.mpr
      intro c hc
      have : c ≠ ',' := fun e => h (e ▸ hc)
      simpa using this
    have hd2 : List.dropWhile (fun x => !decide (x = ',')) row = [] := by simpa using hd
    simp [hd2, h]

/-! ## Files and CSV text -/

@[simp] theorem readFileSync_emit (filename : Str) (w : World) (e : Event) :
    readFileSync filename (w.emit e) = readFileSync filename w := rfl

@[simp] theorem readFileSync_writeFileSync (filename text : Str) (w : World) :
    readFileSync filename (writeFileSync filename text w) = some text := by
  simp [readFileSync, writeFileSync]

theorem loadCsv_saveCsv (users : List User) (filename : Str) (w : World) :
    loadCsv filename (saveCsv users filename w) = some (parseCsv (csvData users)) := by
  simp [loadCsv, saveCsv]

theorem loadCsv_writeFileSync (filename text : Str) (w : World) :
    loadCsv filename (writeFileSync filename text w) = some (parseCsv text) := by
  simp [loadCsv]

/-- The records of a text given line by line. -/
theorem parseCsv_join (header : Str) (lines : List Str)
    (h : ∀ l ∈ header :: lines, '\n' ∉ l) :
    parseCsv (join ['\n'] (header :: lines)) =
      (lines.filter (fun l => !isBlank l)).map parseRow := by
  unfold parseCsv
  rw [split_join '\n' header lines h]
  simp [truthy_trim]

theorem join_cons_flatten (sep : Char) (x : Str) (xs : List Str) :
    join [sep] (x :: xs) = x ++ (xs.map (fun v => sep :: v)).flatten := by
  induction xs generalizing x with
  | nil => simp [join]
  | cons y ys ih => simp [join, ih y]

theorem csvRow_not_blank (u : User) : isBlank (csvRow u) = false := by
  have : isWhiteSpace ',' = false := by decide
  simp [isBlank, csvRow, this]

theorem csvData_eq_join (users : List User) :
    csvData users =
      join ['\n'] ("Username,URL".toList ::
        (match users with
         | [] => [[]]
         | u :: rest => (u :: rest).map csvRow)) := by
  have hh : "Username,URL\n".toList = "Username,URL".toList ++ ['\n'] := by decide
  have hn : "\n".toList = ['\n'] := by decide
  have hc : ",".toList = [','] := by decide
  cases users with
  | nil => simp [csvData, join, hh]
  | cons u rest =>
    simp only [csvData, hh, hn, hc, List.map_cons, join]
    simp [csvRow]
    rfl

/-- Reading back an exported list: identifiers come back whole, URLs up to
their first comma. -/
theorem parseCsv_csvData (users : List User)
    (h : ∀ u ∈ users, ',' ∉ u.login ∧ '\n' ∉ u.login ∧ '\n' ∉ u.html_url) :
    parseCsv (csvData users) =
      users.map (fun u => { username := .str u.login, url := .str (beforeComma u.html_url) }) := by
  have hhdr : '\n' ∉ "Username,URL".toList := by decide
  rw [csvData_eq_join]
  cases users with
  | nil =>
    rw [parseCsv_join _ _ (by simp [hhdr])]
    simp [isBlank]
  | cons u rest =>
    have hrows : ∀ l ∈ "Username,URL".toList :: (u :: rest).map csvRow, '\n' ∉ l := by
      intro l hl
      rcases List.mem_cons.mp hl with hl | hl
      · subst hl; exact hhdr
      · obtain ⟨v, hv, rfl⟩ := List.mem_map.mp hl
        have := h v hv
        simp [csvRow, this.2.1, this.2.2]
    show parseCsv (join ['\n'] ("Username,URL".toList :: (u :: rest).map csvRow)) = _
    rw [parseCsv_join _ _ hrows, List.filter_map, List.map_map]
    have hfil : (u :: rest).filter ((fun l => !isBlank l) ∘ csvRow) = u :: rest := by
      apply List.filter_eq_self.mpr
      intro v _
      simp [csvRow_not_blank]
    rw [hfil]
    apply List.map_congr_left
    intro v hv
    have hlogin : ',' ∉ v.login := (h v hv).1
    have htake : List.takeWhile (fun x => decide (x ≠ ',')) (v.login ++ ',' :: v.html_url)
        = v.login := by
      rw [List.takeWhile_append_of_pos]
      · simp
      · intro c hc
        have : c ≠ ',' := fun e => hlogin (e ▸ hc)
        simpa using this
    have hdrop : List.dropWhile (fun x => decide (x ≠ ',')) (v.login ++ ',' :: v.html_url)
        = ',' :: v.html_url := by
      rw [List.dropWhile_append_of_pos]
      · simp
      · intro c hc
        have : c ≠ ',' := fun e => hlogin (e ▸ hc)
        simpa using this
    simp only [Function.comp, parseRow_fields, csvRow, beforeComma, afterComma, htake, hdrop]
    simp

theorem beforeComma_of_not_mem (s : Str) (h : ',' ∉ s) : beforeComma s = s := by
  unfold beforeComma
  apply List.takeWhile_eq_self_iff.mpr
  intro c hc
  have : c ≠ ',' := fun e => h (e ▸ hc)
  simpa using this

/-! ## CSV claims -/

/-- C4. The file `saveCsv` writes is the header line `Username,URL`, a line
feed, then one row `login,html_url` per user in input order, every row after
the first preceded by exactly one line feed, nothing quoted or escaped and
nothing after the last row; for alice and bob it is the text of the
specification. -/
theorem saveCsv_file_format (users : List User) (filename : Str) (w : World) :
    readFileSync filename (saveCsv users filename w) =
      some ("Username,URL".toList ++ '\n' ::
        (match users with
         | [] => []
         | u :: rest =>
           (u.login ++ ',' :: u.html_url) ++
             (rest.map (fun v => '\n' :: (v.login ++ ',' :: v.html_url))).flatten)) ∧
    readFileSync filename (saveCsv [alice, bob] filename w) =
      some "Username,URL\nalice,https://x/alice\nbob,https://x/bob".toList := by
  have hfile : ∀ us, readFileSync filename (saveCsv us filename w) = some (csvData us) := by
    intro us; simp [saveCsv]
  refine ⟨?_, ?_⟩
  · rw [hfile, csvData_eq_join, join_cons_flatten]
    cases users with
    | nil => simp
    | cons u rest =>
      simp only [List.map_cons, List.flatten_cons, List.map_map]
      simp [csvRow, Function.comp_def]
  · rw [hfile]; decide

/-- C3. CSV round trip: when no login and no profile URL holds a comma or a
line feed, loading the file that `saveCsv` wrote gives one record per user, in
the same order, with `username` the login and `url` the profile URL. -/
theorem csv_round_trip (users : List User) (filename : Str) (w : World)
    (h : ∀ u ∈ users, ',' ∉ u.login ∧ '\n' ∉ u.login ∧ ',' ∉ u.html_url ∧ '\n' ∉ u.html_url) :
    loadCsv filename (saveCsv users filename w) =
      some (users.map (fun u => { username := .str u.login, url := .str u.html_url })) := by
  rw [loadCsv_saveCsv, parseCsv_csvData users (fun u hu => ⟨(h u hu).1, (h u hu).2.1, (h u hu).2.2.2⟩)]
  congr 1
  apply List.map_congr_left
  intro u hu
  rw [beforeComma_of_not_mem _ (h u hu).2.2.1]

theorem csv_round_trip_witness :
    (∀ u ∈ [alice, bob],
      ',' ∉ u.login ∧ '\n' ∉ u.login ∧ ',' ∉ u.html_url ∧ '\n' ∉ u.html_url) ∧
    loadCsv "out.csv".toList (saveCsv [alice, bob] "out.csv".toList World.initial) =
      some ([alice, bob].map (fun u => { username := .str u.login, url := .str u.html_url })) :=
  ⟨by decide, csv_round_trip [alice, bob] "out.csv".toList World.initial (by decide)⟩

/-- C7, as the claim states it, fails: for the row `a,b,c` the loader returns
the url `b`, not `b,c`, the text after the first comma. -/
theorem loadCsv_first_comma_counterexample :
    loadCsv "in.csv".toList
        (writeFileSync "in.csv".toList "Username,URL\na,b,c".toList World.initial) =
      some [{ username := .str "a".toList, url := .str "b".toList }] ∧
    afterComma "a,b,c".toList = "b,c".toList ∧
    loadCsv "in.csv".toList
        (writeFileSync "in.csv".toList "Username,URL\na,b,c".toList World.initial) ≠
      some [{ username := .str (beforeComma "a,b,c".toList),
              url := .str (afterComma "a,b,c".toList) }] := by
  decide

/-- C7, amended. The loader splits a row on every comma and keeps the first
two fields: for every non-blank row after the header, `username` is the text
before the first comma (the whole row when it has none) and `url` is the text
between the first comma and the second (up to the end of the row when there is
no second comma), or `undefined` when the row has no comma. -/
theorem loadCsv_row_fields (header : Str) (lines : List Str) (filename : Str) (w : World)
    (h : ∀ l ∈ header :: lines, '\n' ∉ l) :
    loadCsv filename (writeFileSync filename (join ['\n'] (header :: lines)) w) =
      some ((lines.filter (fun row => !isBlank row)).map (fun row =>
        { username := .str (beforeComma row)
          url := if ',' ∈ row then .str (beforeComma (afterComma row)) else .undefined })) := by
  rw [loadCsv_writeFileSync, parseCsv_join header lines h]
  congr 1
  apply List.map_congr_left
  intro row _
  exact parseRow_fields row

theorem loadCsv_row_fields_witness :
    (∀ l ∈ "Username,URL".toList :: ["a,b,c".toList, "  ".toList, "d".toList], '\n' ∉ l) ∧
    loadCsv "in.csv".toList
        (writeFileSync "in.csv".toList
          (join ['\n'] ("Username,URL".toList :: ["a,b,c".toList, "  ".toList, "d".toList]))
          World.initial) =
      some ((["a,b,c".toList, "  ".toList, "d".toList].filter (fun row => !isBlank row)).map
        (fun row =>
          { username := .str (beforeComma row)
            url := if ',' ∈ row then .str (beforeComma (afterComma row)) else .undefined })) :=
  ⟨by decide,
   loadCsv_row_fields "Username,URL".toList ["a,b,c".toList, "  ".toList, "d".toList]
     "in.csv".toList World.initial (by decide)⟩

/-- C8. Every file text is a first line followed by further lines, each
introduced by a line feed; `loadCsv` drops the first line whatever it holds and
returns one record per further line that is not blank, in file order, each
built from the untrimmed line (its `username` is the line up to its first
comma, white space included). -/
theorem loadCsv_skips_header_and_blank_rows (text filename : Str) (w : World) :
    ∃ header lines,
      text = header ++ (lines.map (fun l => '\n' :: l)).flatten ∧
      (∀ l ∈ header :: lines, '\n' ∉ l) ∧
      loadCsv filename (writeFileSync filename text w) =
        some ((lines.filter (fun l => !isBlank l)).map parseRow) ∧
      ∀ l ∈ lines, (parseRow l).username = .str (l.takeWhile (· ≠ ',')) := by
  have hne := splitGo_ne_nil '\n' text []
  have hjoin := join_splitGo '\n' text []
  have hfields := splitGo_fields '\n' text [] (by simp)
  cases hsp : splitGo '\n' text [] with
  | nil => exact absurd hsp hne
  | cons header lines =>
    rw [hsp] at hjoin hfields
    have htext : text = join ['\n'] (header :: lines) := by simpa using hjoin.symm
    refine ⟨header, lines, ?_, hfields, ?_, ?_⟩
    · rw [htext, join_cons_flatten]
    · rw [loadCsv_writeFileSync, htext, parseCsv_join header lines hfields]
    · intro l _
      rw [parseRow_fields]
      rfl

/-! ## Requests -/

theorem githubRequest_eq (net : Network) (method endpoint : Str)
    (params : List (Str × JsVal)) (w : World) :
    githubRequest net method endpoint params w =
      ((net w.calls ⟨method, constructUrl endpoint params, params⟩).data,
       { calls := w.calls + 1
         trace := w.trace ++ Event.request ⟨method, constructUrl endpoint params, params⟩ ::
           (net w.calls ⟨method, constructUrl endpoint params, params⟩).diagnostics
         files := w.files }) := by
  unfold githubRequest
  cases h : net w.calls ⟨method, constructUrl endpoint params, params⟩ <;>
    simp [h, World.emit, Outcome.data, Outcome.diagnostics]

theorem getFollowingUsersLoop_step (net : Network) (fuel : Nat) (users : List User)
    (page : Nat) (w : World) :
    getFollowingUsersLoop net (fuel + 1) users page w =
      if pageDone (net w.calls (pageRequest .following page)).data then
        some (users,
          { calls := w.calls + 1
            trace := w.trace ++ Event.request (pageRequest .following page) ::
              (net w.calls (pageRequest .following page)).diagnostics
            files := w.files })
      else
        getFollowingUsersLoop net fuel
          (concatPage users (net w.calls (pageRequest .following page)).data) (page + 1)
          { calls := w.calls + 1
            trace := w.trace ++ Event.request (pageRequest .following page) ::
              (net w.calls (pageRequest .following page)).diagnostics
            files := w.files } := by
  simp only [getFollowingUsersLoop, githubRequest_eq]
  rfl

theorem getOrgMembersLoop_step (net : Network) (org : JsVal) (fuel : Nat)
    (users : List User) (page : Nat) (w : World) :
    getOrgMembersLoop net org (fuel + 1) users page w =
      if pageDone (net w.calls (pageRequest (.orgMembers org) page)).data then
        some (users,
          { calls := w.calls + 1
            trace := w.trace ++ Event.request (pageRequest (.orgMembers org) page) ::
              (net w.calls (pageRequest (.orgMembers org) page)).diagnostics
            files := w.files })
      else
        getOrgMembersLoop net org fuel
          (concatPage users (net w.calls (pageRequest (.orgMembers org) page)).data) (page + 1)
          { calls := w.calls + 1
            trace := w.trace ++ Event.request (pageRequest (.orgMembers org) page) ::
              (net w.calls (pageRequest (.orgMembers org) page)).diagnostics
            files := w.files } := by
  simp only [getOrgMembersLoop, githubRequest_eq]
  rfl

/-- Both pagination loops, run on `pages.length` non-empty pages followed by a
request whose answer ends the loop. -/
theorem pages_loop (net : Network) (ep : ListEndpoint)
    (loop : Nat → List User → Nat → World → Option (List User × World))
    (hstep : ∀ fuel users page w,
      loop (fuel + 1) users page w =
        if pageDone (net w.calls (pageRequest ep page)).data then
          some (users,
            { calls := w.calls + 1
              trace := w.trace ++ Event.request (pageRequest ep page) ::
                (net w.calls (pageRequest ep page)).diagnostics
              files := w.files })
        else
          loop fuel (concatPage users (net w.calls (pageRequest ep page)).data) (page + 1)
            { calls := w.calls + 1
              trace := w.trace ++ Event.request (pageRequest ep page) ::
                (net w.calls (pageRequest ep page)).diagnostics
              files := w.files })
    (pages : List (List User)) (hne : ∀ p ∈ pages, p ≠ [])
    (acc : List User) (page : Nat) (w : World) (fuel : Nat)
    (hpages : ∀ i (hi : i < pages.length),
      net (w.calls + i) (pageRequest ep (page + i)) = .resolved (.users (pages.get ⟨i, hi⟩)))
    (hlast : pageDone
      (net (w.calls + pages.length) (pageRequest ep (page + pages.length))).data = true)
    (hfuel : pages.length < fuel) :
    loop fuel acc page w =
      some (acc ++ pages.flatten,
        { calls := w.calls + pages.length + 1
          trace := w.trace ++
            (List.range' page (pages.length + 1)).map (fun p => Event.request (pageRequest ep p)) ++
            (net (w.calls + pages.length) (pageRequest ep (page + pages.length))).diagnostics
          files := w.files }) := by
  induction pages generalizing acc page w fuel with
  | nil =>
    obtain ⟨f, rfl⟩ : ∃ f, fuel = f + 1 := ⟨fuel - 1, by simp at hfuel; omega⟩
    simp only [List.length_nil, Nat.add_zero] at hlast
    rw [hstep, if_pos hlast]
    simp
  | cons p ps ih =>
    obtain ⟨f, rfl⟩ : ∃ f, fuel = f + 1 := ⟨fuel - 1, by simp at hfuel; omega⟩
    have h0 := hpages 0 (by simp)
    simp only [Nat.add_zero, List.get_eq_getElem, List.getElem_cons_zero] at h0
    have hp : p ≠ [] := hne p (by simp)
    have hnd : pageDone (Outcome.resolved (Body.users p)).data = false := by
      cases p with
      | nil => exact absurd rfl hp
      | cons a as => simp [Outcome.data, pageDone]
    rw [hstep, h0, hnd]
    simp only [Bool.false_eq_true, if_false]
    have hfuel2 : ps.length < f := by simp at hfuel; omega
    rw [ih (fun q hq => hne q (by simp [hq])) _ (page + 1) _ f ?_ ?_ hfuel2]
    · simp only [Outcome.data, concatPage, Outcome.diagnostics, List.flatten_cons,
        List.length_cons, List.range'_succ page (ps.length + 1), List.map_cons]
      have e1 : w.calls + 1 + ps.length = w.calls + (ps.length + 1) := by omega
      have e2 : page + 1 + ps.length = page + (ps.length + 1) := by omega
      simp [e1, e2, List.append_assoc]
    · intro i hi
      have := hpages (i + 1) (by simp; omega)
      simp only [List.get_eq_getElem, List.getElem_cons_succ] at this
      have e1 : w.calls + 1 + i = w.calls + (i + 1) := by omega
      have e2 : page + 1 + i = page + (i + 1) := by omega
      simp only [e1, e2, List.get_eq_getElem]
      exact this
    · have e1 : w.calls + 1 + ps.length = w.calls + (ps.length + 1) := by omega
      have e2 : page + 1 + ps.length = page + (ps.length + 1) := by omega
      simp only [e1, e2]
      simpa using hlast

theorem fetchAll_pages (net : Network) (ep : ListEndpoint) (pages : List (List User))
    (fuel : Nat) (w : World) (hne : ∀ p ∈ pages, p ≠ [])
    (hpages : ∀ i (hi : i < pages.length),
      net (w.calls + i) (pageRequest ep (i + 1)) = .resolved (.users (pages.get ⟨i, hi⟩)))
    (hlast : pageDone
      (net (w.calls + pages.length) (pageRequest ep (pages.length + 1))).data = true)
    (hfuel : pages.length < fuel) :
    fetchAll net fuel ep w =
      some (pages.flatten,
        { calls := w.calls + pages.length + 1
          trace := w.trace ++
            (List.range (pages.length + 1)).map (fun i => Event.request (pageRequest ep (i + 1))) ++
            (net (w.calls + pages.length) (pageRequest ep (pages.length + 1))).diagnostics
          files := w.files }) := by
  have hpages2 : ∀ i (hi : i < pages.length),
      net (w.calls + i) (pageRequest ep (1 + i)) = .resolved (.users (pages.get ⟨i, hi⟩)) := by
    intro i hi; rw [Nat.add_comm 1 i]; exact hpages i hi
  have hlast2 : pageDone
      (net (w.calls + pages.length) (pageRequest ep (1 + pages.length))).data = true := by
    rw [Nat.add_comm 1]; exact hlast
  have hrange : (List.range' 1 (pages.length + 1)).map (fun p => Event.request (pageRequest ep p))
      = (List.range (pages.length + 1)).map (fun i => Event.request (pageRequest ep (i + 1))) := by
    rw [List.range'_eq_map_range, List.map_map]
    apply List.map_congr_left
    intro i _
    simp [Nat.add_comm]
  cases ep with
  | following =>
    have := pages_loop net .following (getFollowingUsersLoop net)
      (getFollowingUsersLoop_step net) pages hne [] 1 w fuel hpages2 hlast2 hfuel
    simp only [fetchAll, getFollowingUsers, this, hrange, Nat.add_comm 1 pages.length]
    simp
  | orgMembers org =>
    have := pages_loop net (.orgMembers org) (getOrgMembersLoop net org)
      (getOrgMembersLoop_step net org) pages hne [] 1 w fuel hpages2 hlast2 hfuel
    simp only [fetchAll, getOrgMembers, this, hrange, Nat.add_comm 1 pages.length]
    simp

@[simp] theorem requestsOf_append (a b : List Event) :
    requestsOf (a ++ b) = requestsOf a ++ requestsOf b := by
  simp [requestsOf]

@[simp] theorem requestsOf_map_request (l : List Request) :
    requestsOf (l.map Event.request) = l := by
  induction l with
  | nil => rfl
  | cons r rs ih =>
    simp only [requestsOf] at ih
    simp [requestsOf, ih]

@[simp] theorem requestsOf_diagnostics (o : Outcome) : requestsOf o.diagnostics = [] := by
  cases o <;> rfl

theorem pageRequest_params (ep : ListEndpoint) (page : Nat) :
    (pageRequest ep page).method = "get".toList ∧
    (pageRequest ep page).params.lookup "page".toList = some (.num page) ∧
    (pageRequest ep page).params.lookup "per_page".toList = some (.num 100) := by
  have h1 : ("page".toList == "org".toList) = false := by decide
  have h2 : ("per_page".toList == "org".toList) = false := by decide
  have h3 : ("per_page".toList == "page".toList) = false := by decide
  cases ep <;>
    simp [pageRequest, ListEndpoint.fixedParams, List.lookup, h1, h2, h3]

/-! ## Pagination claims -/

/-- C1. Pagination completeness: when the remote side answers page requests
1 to k with non-empty pages and request k+1 with an empty page,
`getFollowingUsers` and `getOrgMembers` return the concatenation of the k pages
in page order (length the sum of the page sizes) after exactly k+1 requests,
for pages 1, 2, ..., k+1, each with `per_page` 100. -/
theorem pagination_complete (net : Network) (ep : ListEndpoint) (pages : List (List User))
    (fuel : Nat) (w : World) (hne : ∀ p ∈ pages, p ≠ [])
    (hpages : ∀ i (hi : i < pages.length),
      net (w.calls + i) (pageRequest ep (i + 1)) = .resolved (.users (pages.get ⟨i, hi⟩)))
    (hlast : net (w.calls + pages.length) (pageRequest ep (pages.length + 1)) =
      .resolved (.users []))
    (hfuel : pages.length < fuel) :
    ∃ w2, fetchAll net fuel ep w = some (pages.flatten, w2) ∧
      pages.flatten.length = (pages.map List.length).sum ∧
      w2.trace = w.trace ++
        (List.range (pages.length + 1)).map (fun i => Event.request (pageRequest ep (i + 1))) ∧
      w2.calls = w.calls + (pages.length + 1) ∧
      ∀ i, (pageRequest ep (i + 1)).method = "get".toList ∧
        (pageRequest ep (i + 1)).params.lookup "page".toList = some (.num (i + 1)) ∧
        (pageRequest ep (i + 1)).params.lookup "per_page".toList = some (.num 100) := by
  have hdone : pageDone
      (net (w.calls + pages.length) (pageRequest ep (pages.length + 1))).data = true := by
    rw [hlast]; rfl
  refine ⟨_, fetchAll_pages net ep pages fuel w hne hpages hdone hfuel, ?_, ?_, ?_, ?_⟩
  · simp [List.length_flatten]
  · simp [hlast, Outcome.diagnostics]
  · simp [Nat.add_assoc]
  · intro i
    exact pageRequest_params ep (i + 1)

theorem pagination_complete_witness :
    samplePages.map List.length = [100, 100, 37] ∧
    (∃ w2, fetchAll sampleNet 4 .following World.initial = some (samplePages.flatten, w2) ∧
      samplePages.flatten.length = 237 ∧
      w2.trace = (List.range 4).map (fun i => Event.request (pageRequest .following (i + 1))) ∧
      w2.calls = 4) ∧
    (∃ w2, fetchAll emptyNet 1 (.orgMembers (.str "acme".toList)) World.initial =
        some ([], w2) ∧
      w2.calls = 1) := by
  refine ⟨by simp [samplePages], ?_, ?_⟩
  · obtain ⟨w2, h1, h2, h3, h4, _⟩ :=
      pagination_complete sampleNet .following samplePages 4 World.initial
        (by simp [samplePages])
        (by intro i hi; simp [sampleNet, World.initial, List.getElem?_eq_getElem hi])
        (by simp [sampleNet, World.initial, samplePages])
        (by simp [samplePages])
    refine ⟨w2, h1, ?_, ?_, ?_⟩
    · rw [h2]; simp [samplePages]
    · rw [h3]; simp [World.initial, samplePages]
    · rw [h4]; simp [World.initial, samplePages]
  · obtain ⟨w2, h1, _, _, h4, _⟩ :=
      pagination_complete emptyNet (.orgMembers (.str "acme".toList)) [] 1 World.initial
        (by simp) (by intro i hi; simp at hi) (by simp [emptyNet]) (by simp)
    exact ⟨w2, by simpa using h1, by rw [h4]; simp [World.initial]⟩

/-- C2. Pagination truncation on failure: when the remote side answers page
requests 1 to k with non-empty pages and the request for page k+1 fails
(`githubRequest` returns `null`), `getFollowingUsers` and `getOrgMembers` still
return, with the concatenation of the k pages, after exactly k+1 requests: the
failed page is not asked again and no later page is asked. -/
theorem pagination_truncates_on_failure (net : Network) (ep : ListEndpoint)
    (pages : List (List User)) (fuel : Nat) (w : World) (hne : ∀ p ∈ pages, p ≠ [])
    (hpages : ∀ i (hi : i < pages.length),
      net (w.calls + i) (pageRequest ep (i + 1)) = .resolved (.users (pages.get ⟨i, hi⟩)))
    (hfail : (net (w.calls + pages.length) (pageRequest ep (pages.length + 1))).data =
      Body.null)
    (hfuel : pages.length < fuel) :
    ∃ w2, fetchAll net fuel ep w = some (pages.flatten, w2) ∧
      requestsOf w2.trace = requestsOf w.trace ++
        (List.range (pages.length + 1)).map (fun i => pageRequest ep (i + 1)) ∧
      w2.calls = w.calls + (pages.length + 1) := by
  have hdone : pageDone
      (net (w.calls + pages.length) (pageRequest ep (pages.length + 1))).data = true := by
    rw [hfail]; rfl
  refine ⟨_, fetchAll_pages net ep pages fuel w hne hpages hdone hfuel, ?_, ?_⟩
  · have hmap : (List.range (pages.length + 1)).map (fun i => Event.request (pageRequest ep (i + 1)))
        = ((List.range (pages.length + 1)).map (fun i => pageRequest ep (i + 1))).map
            Event.request := by
      rw [List.map_map]; rfl
    simp only [requestsOf_append, requestsOf_diagnostics, List.append_nil, hmap,
      requestsOf_map_request]
  · simp [Nat.add_assoc]

theorem pagination_truncates_on_failure_witness :
    (failingNet 1 (pageRequest (.orgMembers (.str "acme".toList)) 2)).data = Body.null ∧
    ∃ w2, fetchAll failingNet 2 (.orgMembers (.str "acme".toList)) World.initial =
        some ([[alice, bob]].flatten, w2) ∧
      requestsOf w2.trace = requestsOf World.initial.trace ++
        (List.range ([[alice, bob]].length + 1)).map
          (fun i => pageRequest (.orgMembers (.str "acme".toList)) (i + 1)) ∧
      w2.calls = World.initial.calls + ([[alice, bob]].length + 1) :=
  ⟨by decide,
   pagination_truncates_on_failure failingNet (.orgMembers (.str "acme".toList))
     [[alice, bob]] 2 World.initial (by decide)
     (by intro i hi
         have : i = 0 := by simpa using hi
         subst this
         rfl)
     (by decide) (by decide)⟩

/-! ## Batch loops -/

theorem sleep_followUser (net : Network) (ms : JsNumber) (username : JsVal) (w : World) :
    sleep ms (followUser net username w) =
      { calls := w.calls + 1
        trace := w.trace ++
          itemEvents net "put".toList "Failed to follow ".toList ms w.calls username
        files := w.files } := by
  simp only [followUser, githubRequest_eq, sleep, itemEvents, mutationRequest]
  split <;> simp [World.emit, *]

theorem sleep_unfollowUser (net : Network) (ms : JsNumber) (username : JsVal)
    (w : World) :
    sleep ms (unfollowUser net username w) =
      { calls := w.calls + 1
        trace := w.trace ++
          itemEvents net "delete".toList "Failed to unfollow ".toList ms w.calls username
        files := w.files } := by
  simp only [unfollowUser, githubRequest_eq, sleep, itemEvents, mutationRequest,
    GitHubAPI.UNFOLLOW_USER, GitHubAPI.FOLLOW_USER]
  split <;> simp [World.emit, *]

/-- A batch loop runs one round per item, whatever the outcomes. -/
theorem batch_loop (net : Network) (method failureText : Str) (ms : JsNumber)
    (op : JsVal → World → World)
    (hop : ∀ u w, sleep ms (op u w) =
      { calls := w.calls + 1
        trace := w.trace ++ itemEvents net method failureText ms w.calls u
        files := w.files })
    (items : List JsVal) (w : World) :
    items.foldl (fun w item => sleep ms (op item w)) w =
      { calls := w.calls + items.length
        trace := w.trace ++ batchEvents net method failureText ms w.calls items
        files := w.files } := by
  induction items generalizing w with
  | nil => simp [batchEvents]
  | cons item rest ih =>
    rw [List.foldl_cons, hop, ih]
    simp [batchEvents, Nat.add_assoc, Nat.add_comm 1]

theorem BatchCommand.run_eq (net : Network) (fuel : Nat) (options : Options)
    (cmd : BatchCommand) (w : World) (items : List JsVal) (w1 : World)
    (h : cmd.items net fuel w = some (items, w1)) :
    cmd.run net fuel options w =
      some { calls := w1.calls + items.length
             trace := w1.trace ++
               batchEvents net cmd.method cmd.failureText options.delay.toNumber.times1000
                 w1.calls items
             files := w1.files } := by
  cases cmd with
  | followFromCsv filename =>
    simp only [BatchCommand.items] at h
    cases hl : loadCsv filename w with
    | none => simp [hl] at h
    | some records =>
      simp only [hl, Option.map_some', Option.some.injEq, Prod.mk.injEq] at h
      obtain ⟨rfl, rfl⟩ := h
      simp only [BatchCommand.run, GithubFollowers.followFromCsv, hl, BatchCommand.method,
        BatchCommand.failureText]
      rw [← batch_loop net _ _ _ (followUser net) (sleep_followUser net _), List.foldl_map]
  | unfollowFromCsv filename =>
    simp only [BatchCommand.items] at h
    cases hl : loadCsv filename w with
    | none => simp [hl] at h
    | some records =>
      simp only [hl, Option.map_some', Option.some.injEq, Prod.mk.injEq] at h
      obtain ⟨rfl, rfl⟩ := h
      simp only [BatchCommand.run, GithubFollowers.unfollowFromCsv, hl, BatchCommand.method,
        BatchCommand.failureText]
      rw [← batch_loop net _ _ _ (unfollowUser net) (sleep_unfollowUser net _), List.foldl_map]
  | followOrgMembers org =>
    simp only [BatchCommand.items] at h
    cases hl : getOrgMembers net fuel (.str org) w with
    | none => simp [hl] at h
    | some r =>
      obtain ⟨users, w0⟩ := r
      simp only [hl, Option.map_some', Option.some.injEq, Prod.mk.injEq] at h
      obtain ⟨rfl, rfl⟩ := h
      simp only [BatchCommand.run, GithubFollowers.followOrgMembers, hl, BatchCommand.method,
        BatchCommand.failureText]
      rw [← batch_loop net _ _ _ (followUser net) (sleep_followUser net _), List.foldl_map]
  | unfollowOrgMembers org =>
    simp only [BatchCommand.items] at h
    cases hl : getOrgMembers net fuel (.str org) w with
    | none => simp [hl] at h
    | some r =>
      obtain ⟨users, w0⟩ := r
      simp only [hl, Option.map_some', Option.some.injEq, Prod.mk.injEq] at h
      obtain ⟨rfl, rfl⟩ := h
      simp only [BatchCommand.run, GithubFollowers.unfollowOrgMembers, hl, BatchCommand.method,
        BatchCommand.failureText]
      rw [← batch_loop net _ _ _ (unfollowUser net) (sleep_unfollowUser net _), List.foldl_map]

theorem requestsOf_batchEvents (net : Network) (method failureText : Str) (ms : JsNumber)
    (n : Nat)
    (items : List JsVal) :
    requestsOf (batchEvents net method failureText ms n items) =
      items.map (mutationRequest method) := by
  induction items generalizing n with
  | nil => rfl
  | cons item rest ih =>
    simp only [batchEvents, requestsOf_append, ih, itemEvents, List.map_cons]
    have : requestsOf (Event.request (mutationRequest method item) ::
        ((net n (mutationRequest method item)).diagnostics ++
          (if (net n (mutationRequest method item)).data = Body.null
            then [Event.consoleError (failureText ++ item.toStr)] else []) ++
          [Event.setTimeout ms])) = [mutationRequest method item] := by
      cases net n (mutationRequest method item) with
      | resolved data => by_cases hd : data = Body.null <;> simp [requestsOf, Outcome.diagnostics, Outcome.data, hd]
      | rejected message => simp [requestsOf, Outcome.diagnostics, Outcome.data]
    rw [this]; rfl

theorem timeoutsOf_batchEvents (net : Network) (method failureText : Str) (ms : JsNumber)
    (n : Nat)
    (items : List JsVal) :
    timeoutsOf (batchEvents net method failureText ms n items) =
      List.replicate items.length ms := by
  induction items generalizing n with
  | nil => rfl
  | cons item rest ih =>
    have hsplit : ∀ a b : List Event, timeoutsOf (a ++ b) = timeoutsOf a ++ timeoutsOf b := by
      intro a b; simp [timeoutsOf]
    have : timeoutsOf (itemEvents net method failureText ms n item) = [ms] := by
      unfold itemEvents
      cases net n (mutationRequest method item) with
      | resolved data => by_cases hd : data = Body.null <;> simp [timeoutsOf, Outcome.diagnostics, Outcome.data, hd]
      | rejected message => simp [timeoutsOf, Outcome.diagnostics, Outcome.data]
    simp only [batchEvents, hsplit, ih, this, List.length_cons, List.replicate_succ]
    rfl

theorem filter_batchEvents (net : Network) (method failureText : Str) (ms : JsNumber)
    (n : Nat)
    (items : List JsVal) :
    (batchEvents net method failureText ms n items).filter (fun e => !e.isConsole) =
      items.flatMap (fun item =>
        [Event.request (mutationRequest method item), Event.setTimeout ms]) := by
  induction items generalizing n with
  | nil => rfl
  | cons item rest ih =>
    have : (itemEvents net method failureText ms n item).filter (fun e => !e.isConsole) =
        [Event.request (mutationRequest method item), Event.setTimeout ms] := by
      unfold itemEvents
      cases net n (mutationRequest method item) with
      | resolved data => by_cases hd : data = Body.null <;> simp [Event.isConsole, Outcome.diagnostics, Outcome.data, hd]
      | rejected message => simp [Event.isConsole, Outcome.diagnostics, Outcome.data]
    simp only [batchEvents, List.filter_append, ih, this, List.flatMap_cons]

theorem failureReports_batchEvents (net : Network) (method failureText : Str) (ms : JsNumber)
    (n : Nat)
    (items : List JsVal) (htext : "Failed to ".toList <+: failureText) :
    failureReports (batchEvents net method failureText ms n items) =
      ((items.enumFrom n).filter
        (fun p => decide ((net p.1 (mutationRequest method p.2)).data = Body.null))).map
        (fun p => failureText ++ p.2.toStr) := by
  induction items generalizing n with
  | nil => rfl
  | cons item rest ih =>
    have hsplit : ∀ a b : List Event,
        failureReports (a ++ b) = failureReports a ++ failureReports b := by
      intro a b; simp [failureReports]
    have hpre : ("Failed to ".toList.isPrefixOf (failureText ++ item.toStr)) = true := by
      rw [ List.isPrefixOf_iff_prefix]
      exact htext.trans (List.prefix_append _ _)
    have herr : ∀ m : Str, ("Failed to ".toList.isPrefixOf ("Error: ".toList ++ m)) = false := by
      intro m
      have e1 : "Failed to ".toList = 'F' :: "ailed to ".toList := by decide
      have e2 : "Error: ".toList = 'E' :: "rror: ".toList := by decide
      rw [e1, e2]
      simp [List.isPrefixOf]
    have hdiag : ∀ o : Outcome, failureReports o.diagnostics = [] := by
      intro o
      cases o with
      | resolved data => rfl
      | rejected message =>
        simp only [Outcome.diagnostics, failureReports, List.filterMap_cons, herr,
          Bool.false_eq_true, if_false, List.filterMap_nil]
    have hfail : failureReports [Event.consoleError (failureText ++ item.toStr)] =
        [failureText ++ item.toStr] := by
      simp only [failureReports, List.filterMap_cons, hpre, if_true, List.filterMap_nil]
    have hshape : itemEvents net method failureText ms n item =
        [Event.request (mutationRequest method item)] ++
          ((net n (mutationRequest method item)).diagnostics ++
            ((if (net n (mutationRequest method item)).data = Body.null
              then [Event.consoleError (failureText ++ item.toStr)] else []) ++
            [Event.setTimeout ms])) := by
      simp [itemEvents]
    have : failureReports (itemEvents net method failureText ms n item) =
        if (net n (mutationRequest method item)).data = Body.null
          then [failureText ++ item.toStr] else [] := by
      rw [hshape, hsplit, hsplit, hsplit, hdiag]
      by_cases hd : (net n (mutationRequest method item)).data = Body.null
      · rw [if_pos hd, if_pos hd, hfail]; rfl
      · rw [if_neg hd, if_neg hd]; rfl
    simp only [batchEvents, hsplit, ih, this, List.enumFrom_cons, List.filter_cons]
    by_cases hd : (net n (mutationRequest method item)).data = Body.null <;> simp [hd]

theorem failureText_starts (cmd : BatchCommand) : "Failed to ".toList <+: cmd.failureText := by
  cases cmd
  · exact ⟨"follow ".toList, show _ = "Failed to follow ".toList by decide⟩
  · exact ⟨"unfollow ".toList, show _ = "Failed to unfollow ".toList by decide⟩
  · exact ⟨"follow ".toList, show _ = "Failed to follow ".toList by decide⟩
  · exact ⟨"unfollow ".toList, show _ = "Failed to unfollow ".toList by decide⟩

/-! ## Batch claims -/

/-- C5. A batch continues past per-item failures: each of the four batch
commands, run on its list of identifiers, finishes, issues exactly one
mutating request per identifier, in input order, whatever the outcome of each
call, and prints a `Failed to ...` line naming the identifier for exactly the
calls that returned `null`, in order. -/
theorem batch_continues_past_failures (net : Network) (fuel : Nat) (options : Options)
    (cmd : BatchCommand) (w : World) (items : List JsVal) (w1 : World)
    (h : cmd.items net fuel w = some (items, w1)) :
    ∃ added,
      cmd.run net fuel options w =
        some { calls := w1.calls + items.length, trace := w1.trace ++ added,
               files := w1.files } ∧
      requestsOf added = items.map (mutationRequest cmd.method) ∧
      (∀ item, (mutationRequest cmd.method item).params = [("username".toList, item)]) ∧
      failureReports added =
        ((items.enumFrom w1.calls).filter
          (fun p => decide ((net p.1 (mutationRequest cmd.method p.2)).data = Body.null))).map
          (fun p => cmd.failureText ++ p.2.toStr) :=
  ⟨batchEvents net cmd.method cmd.failureText options.delay.toNumber.times1000 w1.calls items,
   BatchCommand.run_eq net fuel options cmd w items w1 h,
   requestsOf_batchEvents net _ _ _ _ items,
   fun _ => rfl,
   failureReports_batchEvents net _ _ _ _ items (failureText_starts cmd)⟩

theorem batch_continues_past_failures_witness :
    (BatchCommand.followFromCsv "in.csv".toList).items secondFails 0 csvWorld =
      some ([.str "a".toList, .str "b".toList, .str "c".toList], csvWorld) ∧
    ∃ added,
      (BatchCommand.followFromCsv "in.csv".toList).run secondFails 0 { delay := .preset 30 } csvWorld =
        some { calls := csvWorld.calls +
                 [JsVal.str "a".toList, .str "b".toList, .str "c".toList].length,
               trace := csvWorld.trace ++ added, files := csvWorld.files } ∧
      requestsOf added =
        [JsVal.str "a".toList, .str "b".toList, .str "c".toList].map
          (mutationRequest (BatchCommand.followFromCsv "in.csv".toList).method) ∧
      (∀ item, (mutationRequest (BatchCommand.followFromCsv "in.csv".toList).method item).params
        = [("username".toList, item)]) ∧
      failureReports added =
        (([JsVal.str "a".toList, .str "b".toList, .str "c".toList].enumFrom csvWorld.calls).filter
          (fun p => decide ((secondFails p.1
            (mutationRequest (BatchCommand.followFromCsv "in.csv".toList).method p.2)).data
              = Body.null))).map
          (fun p => (BatchCommand.followFromCsv "in.csv".toList).failureText ++ p.2.toStr) :=
  ⟨by decide,
   batch_continues_past_failures secondFails 0 { delay := .preset 30 }
     (.followFromCsv "in.csv".toList) csvWorld
     [.str "a".toList, .str "b".toList, .str "c".toList] csvWorld (by decide)⟩

theorem totalWait_replicate (after : JsNumber) (ms : Nat) (h : timerWait after = some ms)
    (count : Nat) : totalWait (List.replicate count after) = some (count * ms) := by
  induction count with
  | zero => simp [totalWait]
  | succ k ih =>
    simp only [List.replicate_succ, totalWait, h, ih]
    congr 1
    rw [Nat.succ_mul, Nat.add_comm]

theorem times1000_in_range (options : Options) (seconds : Nat)
    (hwhole : options.delay.toNumber = .whole seconds)
    (hmax : seconds * 1000 ≤ TIMEOUT_MAX) :
    options.delay.toNumber.times1000 = .whole (seconds * 1000) := by
  have hlt : seconds * 1000 < 9007199254740992 :=
    Nat.lt_of_le_of_lt hmax (by decide)
  simp [hwhole, JsNumber.times1000, JsNumber.ofNat, hlt]

/-- Within the range of a timer the delay is kept: each of the four batch
commands, run on N identifiers with a delay of a whole number D of seconds
such that D*1000 lies between 1 and `TIMEOUT_MAX`, arms exactly N timers, one
right after each mutating call (console output aside), the last item
included; each waits D*1000 milliseconds and together they suspend the run
for N*D*1000 milliseconds. -/
theorem batch_delay_in_range (net : Network) (fuel : Nat) (options : Options)
    (cmd : BatchCommand) (w : World) (items : List JsVal) (w1 : World) (seconds : Nat)
    (h : cmd.items net fuel w = some (items, w1))
    (hwhole : options.delay.toNumber = .whole seconds)
    (hmin : 1 ≤ seconds * 1000) (hmax : seconds * 1000 ≤ TIMEOUT_MAX) :
    ∃ added,
      cmd.run net fuel options w =
        some { calls := w1.calls + items.length, trace := w1.trace ++ added,
               files := w1.files } ∧
      added.filter (fun e => !e.isConsole) =
        items.flatMap (fun item =>
          [Event.request (mutationRequest cmd.method item),
           Event.setTimeout (.whole (seconds * 1000))]) ∧
      (timeoutsOf added).map timerWait =
        List.replicate items.length (some (seconds * 1000)) ∧
      suspendedMs added = some (items.length * (seconds * 1000)) ∧
      (items.length - 1) * (seconds * 1000) ≤ items.length * (seconds * 1000) := by
  have hms := times1000_in_range options seconds hwhole hmax
  have hwait : timerWait (.whole (seconds * 1000)) = some (seconds * 1000) := by
    simp [timerWait, hmin, hmax]
  refine ⟨batchEvents net cmd.method cmd.failureText (.whole (seconds * 1000)) w1.calls items,
    ?_, filter_batchEvents net _ _ _ _ items, ?_, ?_, ?_⟩
  · rw [BatchCommand.run_eq net fuel options cmd w items w1 h, hms]
  · rw [timeoutsOf_batchEvents, List.map_replicate, hwait]
  · rw [suspendedMs, timeoutsOf_batchEvents, totalWait_replicate _ _ hwait]
  · exact Nat.mul_le_mul_right _ (Nat.sub_le _ _)

theorem batch_delay_in_range_witness :
    (BatchCommand.unfollowFromCsv "in.csv".toList).items secondFails 0 csvWorld =
      some ([.str "a".toList, .str "b".toList, .str "c".toList], csvWorld) ∧
    (Options.mk (.typed "5".toList)).delay.toNumber = .whole 5 ∧
    ∃ added,
      (BatchCommand.unfollowFromCsv "in.csv".toList).run secondFails 0
          { delay := .typed "5".toList } csvWorld =
        some { calls := csvWorld.calls +
                 [JsVal.str "a".toList, .str "b".toList, .str "c".toList].length,
               trace := csvWorld.trace ++ added, files := csvWorld.files } ∧
      added.filter (fun e => !e.isConsole) =
        [JsVal.str "a".toList, .str "b".toList, .str "c".toList].flatMap (fun item =>
          [Event.request
             (mutationRequest (BatchCommand.unfollowFromCsv "in.csv".toList).method item),
           Event.setTimeout (.whole (5 * 1000))]) ∧
      (timeoutsOf added).map timerWait =
        List.replicate [JsVal.str "a".toList, .str "b".toList, .str "c".toList].length
          (some (5 * 1000)) ∧
      suspendedMs added =
        some ([JsVal.str "a".toList, .str "b".toList, .str "c".toList].length * (5 * 1000)) ∧
      ([JsVal.str "a".toList, .str "b".toList, .str "c".toList].length - 1) * (5 * 1000) ≤
        [JsVal.str "a".toList, .str "b".toList, .str "c".toList].length * (5 * 1000) :=
  ⟨by decide, by decide,
   batch_delay_in_range secondFails 0 { delay := .typed "5".toList }
     (.unfollowFromCsv "in.csv".toList) csvWorld
     [.str "a".toList, .str "b".toList, .str "c".toList] csvWorld 5
     (by decide) (by decide) (by decide) (by decide)⟩

/-- C6. At `--delay 2147484` the delay of the claim is not kept:
`follow-from-csv` on three rows arms its three timers, one after each request,
with 2147484000 milliseconds, above what a timer accepts, so each waits 1
millisecond and the run is suspended for 3 milliseconds in all, far below
(N-1)*D seconds. -/
theorem batch_delay_above_timer_range :
    (Options.mk (.typed "2147484".toList)).delay.toNumber = .whole 2147484 ∧
    ∃ w2,
      (BatchCommand.followFromCsv "in.csv".toList).run secondFails 0
          { delay := .typed "2147484".toList } csvWorld = some w2 ∧
      (requestsOf w2.trace).length = 3 ∧
      timeoutsOf w2.trace = List.replicate 3 (.whole (2147484 * 1000)) ∧
      (timeoutsOf w2.trace).map timerWait = List.replicate 3 (some 1) ∧
      suspendedMs w2.trace = some 3 ∧
      3 < (3 - 1) * 2147484 * 1000 :=
  ⟨by decide, _, rfl, by decide, by decide, by decide, by decide, by decide⟩

/-! ## Mutation requests -/

theorem getSubstitution_of_no_dollar (matched before after template : Str)
    (h : '$' ∉ template) : getSubstitution matched before after template = template := by
  induction template with
  | nil => rfl
  | cons c rest ih =>
    have hc : c ≠ '$' := fun e => h (by simp [e])
    have hrest : '$' ∉ rest := fun e => h (by simp [e])
    rw [getSubstitution.eq_def]
    simp [hc, ih hrest]

/-- For an identifier without a dollar sign the URL of the mutating call is
the relation endpoint followed by the identifier. -/
theorem constructUrl_follow_user (identifier : Str) (h : '$' ∉ identifier) :
    constructUrl GitHubAPI.FOLLOW_USER [("username".toList, .str identifier)] =
      "https://api.github.com/user/following/".toList ++ identifier := by
  have hidx : indexOf (BASE_URL ++ GitHubAPI.FOLLOW_USER)
      ("\x7b".toList ++ "username".toList ++ "\x7d".toList) = some 38 := by decide
  have htake : (BASE_URL ++ GitHubAPI.FOLLOW_USER).take 38 =
      "https://api.github.com/user/following/".toList := by decide
  have hdrop : (BASE_URL ++ GitHubAPI.FOLLOW_USER).drop
      (38 + ("\x7b".toList ++ "username".toList ++ "\x7d".toList).length) = [] := by decide
  simp only [constructUrl, List.foldl_cons, List.foldl_nil, replace, hidx, htake, hdrop,
    JsVal.toStr, getSubstitution_of_no_dollar _ _ _ _ h, List.append_nil]

/-- C9. At the identifier `$&` the URL that `followUser` and `unfollowUser`
request is the endpoint with its placeholder still in it, not the endpoint
followed by the identifier; at `a$$b` one dollar sign is lost. Each call still
issues exactly one request, a PUT or a DELETE. -/
theorem follow_url_dollar_identifier :
    requestsOf (followUser secondFails (.str "$&".toList) World.initial).trace =
      [{ method := "put".toList
         url := "https://api.github.com/user/following/{username}".toList
         params := [("username".toList, .str "$&".toList)] }] ∧
    requestsOf (unfollowUser secondFails (.str "$&".toList) World.initial).trace =
      [{ method := "delete".toList
         url := "https://api.github.com/user/following/{username}".toList
         params := [("username".toList, .str "$&".toList)] }] ∧
    constructUrl GitHubAPI.FOLLOW_USER [("username".toList, .str "$&".toList)] ≠
      "https://api.github.com/user/following/".toList ++ "$&".toList ∧
    constructUrl GitHubAPI.FOLLOW_USER [("username".toList, .str "a$$b".toList)] =
      "https://api.github.com/user/following/a$b".toList := by
  decide

/-! ## Identifiers across export and import -/

/-- C10. Identifiers survive the CSV round trip even when URLs hold commas:
when no login holds a comma or a line feed and no profile URL holds a line
feed, loading the file that `saveCsv` wrote gives one record per user, in
order, with `username` the login and `url` the profile URL up to its first
comma; `follow-from-csv` and `unfollow-from-csv` on that file then issue one
request per exported login, in the exported order. -/
theorem identifiers_survive_round_trip (users : List User) (filename : Str) (w : World)
    (net : Network) (options : Options)
    (h : ∀ u ∈ users, ',' ∉ u.login ∧ '\n' ∉ u.login ∧ '\n' ∉ u.html_url) :
    (∃ records, loadCsv filename (saveCsv users filename w) = some records ∧
      records.length = users.length ∧
      records.map (·.username) = users.map (fun u => .str u.login) ∧
      records.map (·.url) = users.map (fun u => .str (u.html_url.takeWhile (· ≠ ',')))) ∧
    (∃ w2, followFromCsv net filename options (saveCsv users filename w) = some w2 ∧
      requestsOf w2.trace = requestsOf (saveCsv users filename w).trace ++
        users.map (fun u => mutationRequest "put".toList (.str u.login))) ∧
    (∃ w2, unfollowFromCsv net filename options (saveCsv users filename w) = some w2 ∧
      requestsOf w2.trace = requestsOf (saveCsv users filename w).trace ++
        users.map (fun u => mutationRequest "delete".toList (.str u.login))) := by
  have hload : loadCsv filename (saveCsv users filename w) =
      some (users.map (fun u =>
        { username := .str u.login, url := .str (beforeComma u.html_url) })) := by
    rw [loadCsv_saveCsv, parseCsv_csvData users h]
  have hitems : ∀ cmd, cmd = BatchCommand.followFromCsv filename ∨
      cmd = BatchCommand.unfollowFromCsv filename →
      cmd.items net 0 (saveCsv users filename w) =
        some (users.map (fun u => .str u.login), saveCsv users filename w) := by
    intro cmd hcmd
    rcases hcmd with rfl | rfl <;>
      simp [BatchCommand.items, hload, List.map_map, Function.comp_def]
  refine ⟨⟨_, hload, by simp, by simp [List.map_map, Function.comp_def],
    by simp [List.map_map, Function.comp_def, beforeComma]⟩, ?_, ?_⟩
  · refine ⟨_, BatchCommand.run_eq net 0 options (.followFromCsv filename) _ _ _
      (hitems _ (Or.inl rfl)), ?_⟩
    simp only [requestsOf_append, requestsOf_batchEvents, BatchCommand.method, List.map_map]
    rfl
  · refine ⟨_, BatchCommand.run_eq net 0 options (.unfollowFromCsv filename) _ _ _
      (hitems _ (Or.inr rfl)), ?_⟩
    simp only [requestsOf_append, requestsOf_batchEvents, BatchCommand.method, List.map_map]
    rfl

theorem identifiers_survive_round_trip_witness :
    (∀ u ∈ [alice, carol, bob], ',' ∉ u.login ∧ '\n' ∉ u.login ∧ '\n' ∉ u.html_url) ∧
    ',' ∈ carol.html_url ∧
    (∃ records,
      loadCsv "out.csv".toList (saveCsv [alice, carol, bob] "out.csv".toList World.initial) =
        some records ∧
      records.length = [alice, carol, bob].length ∧
      records.map (·.username) = [alice, carol, bob].map (fun u => .str u.login) ∧
      records.map (·.url) =
        [alice, carol, bob].map (fun u => .str (u.html_url.takeWhile (· ≠ ',')))) ∧
    (∃ w2, followFromCsv secondFails "out.csv".toList { delay := .preset 30 }
        (saveCsv [alice, carol, bob] "out.csv".toList World.initial) = some w2 ∧
      requestsOf w2.trace =
        requestsOf (saveCsv [alice, carol, bob] "out.csv".toList World.initial).trace ++
          [alice, carol, bob].map (fun u => mutationRequest "put".toList (.str u.login))) ∧
    (∃ w2, unfollowFromCsv secondFails "out.csv".toList { delay := .preset 30 }
        (saveCsv [alice, carol, bob] "out.csv".toList World.initial) = some w2 ∧
      requestsOf w2.trace =
        requestsOf (saveCsv [alice, carol, bob] "out.csv".toList World.initial).trace ++
          [alice, carol, bob].map (fun u => mutationRequest "delete".toList (.str u.login))) :=
  ⟨by decide, by decide,
   identifiers_survive_round_trip [alice, carol, bob] "out.csv".toList World.initial
     secondFails { delay := .preset 30 } (by decide)⟩

end GithubFollowers
